import Mathlib

/-!
Shallow embedding of the checklist editor core
(quickchecklists_aistudio_nodejs): the item data model and the container
operations of src/src/components/Checklist.tsx, and the row edit-state
logic of the ChecklistItem component.
-/

namespace QuickChecklists

/-- Model of the JavaScript `String.prototype.trim` used by the
components: removes whitespace characters from both ends of the string.
Written by structural recursion over the character list so that concrete
instances evaluate inside the kernel. -/
def jsTrim (s : String) : String :=
  ⟨((s.data.dropWhile Char.isWhitespace).reverse.dropWhile
      Char.isWhitespace).reverse⟩

/-- The two values of the `type` field of an item: an ordinary checklist
item, or a section header. Mirrors the union type used by the components. -/
inductive ItemType
  | item
  | «section»
deriving DecidableEq, Repr

/-- One entry of a checklist, `ChecklistItemType` in the source: the fields
are exactly the ones the components read and write (`id`, `text`, `type`,
`completed`, `indentation`). JS numbers carrying integer ids and
indentation levels are modelled as `Int`. -/
structure ChecklistItemType where
  id : Int
  text : String
  type : ItemType
  completed : Bool
  indentation : Int
deriving DecidableEq, Repr

/-- `handleAddItem` of Checklist.tsx, as a pure function of the current
items, the text of the add-item input, and the current clock
(`Date.now()`): returns the items unchanged when the input trims to
empty, and otherwise appends one new item carrying the UNtrimmed input
text. -/
def handleAddItem (items : List ChecklistItemType) (newItemText : String)
    (now : Int) : List ChecklistItemType :=
  if jsTrim newItemText = "" then items
  else items ++ [{ id := now, text := newItemText, type := ItemType.item,
                   completed := false, indentation := 0 }]

/-- `handleToggleItem` of Checklist.tsx: maps over the items, negating
`completed` on entries whose id matches. -/
def handleToggleItem (items : List ChecklistItemType) (id : Int) :
    List ChecklistItemType :=
  items.map fun it =>
    if it.id = id then { it with completed := !it.completed } else it

/-- `handleDeleteItem` of Checklist.tsx: keeps the items whose id differs
from the given one. -/
def handleDeleteItem (items : List ChecklistItemType) (id : Int) :
    List ChecklistItemType :=
  items.filter fun it => it.id != id

/-- `handleUpdateItemText` of Checklist.tsx: maps over the items, setting
`text` on entries whose id matches. -/
def handleUpdateItemText (items : List ChecklistItemType) (id : Int)
    (newText : String) : List ChecklistItemType :=
  items.map fun it => if it.id = id then { it with text := newText } else it

/-- The two directions `handleIndentItem` accepts. -/
inductive IndentDirection
  | increase
  | decrease
deriving DecidableEq, Repr

/-- `handleIndentItem` of Checklist.tsx: maps over the items; on an entry
whose id matches AND whose type is `item`, the indentation becomes
`min (ind + 1) 5` (increase) or `max (ind - 1) 0` (decrease); every other
entry, sections included, is returned unchanged. -/
def handleIndentItem (items : List ChecklistItemType) (id : Int)
    (direction : IndentDirection) : List ChecklistItemType :=
  items.map fun it =>
    if it.id = id ∧ it.type = ItemType.item then
      { it with indentation :=
          match direction with
          | IndentDirection.increase => min (it.indentation + 1) 5
          | IndentDirection.decrease => max (it.indentation - 1) 0 }
    else it

/-- `handleDrop` of Checklist.tsx, as a pure function of the items and the
two drag refs (`dragItemId`, `dragOverItemId`): both ids are located with
`findIndex`; when either is missing or the two indices coincide the items
are returned unchanged; otherwise the dragged entry is spliced out of its
index and spliced back in at the target index computed before removal
(`take`/`drop` mirror the clamping of `Array.prototype.splice`). -/
def handleDrop (items : List ChecklistItemType) (dragItemId : Int)
    (dragOverItemId : Int) : List ChecklistItemType :=
  match items.findIdx? (fun it => it.id == dragItemId),
        items.findIdx? (fun it => it.id == dragOverItemId) with
  | some draggedIndex, some targetIndex =>
    if draggedIndex = targetIndex then items
    else
      match items[draggedIndex]? with
      | some draggedItem =>
        let newItems := items.eraseIdx draggedIndex
        newItems.take targetIndex ++ draggedItem :: newItems.drop targetIndex
      | none => items
  | _, _ => items

/-- `handleSave` of the ChecklistItem row, as a pure function of the item
(whose `text` is the original) and the local edit buffer: returns the new
buffer value, the new `isEditing` flag (always false), and the rename call
issued — `some (id, newText)` when the buffer trims to non-empty AND
differs from the original, `none` (with the buffer reverted) otherwise. -/
def handleSave (it : ChecklistItemType) (editText : String) :
    String × Bool × Option (Int × String) :=
  if jsTrim editText ≠ "" ∧ editText ≠ it.text then
    (editText, false, some (it.id, editText))
  else
    (it.text, false, none)

/-- `handleDoubleClick` of the ChecklistItem row: the transition on the
`isEditing` flag — a completed non-section item keeps the flag as it was,
every other item switches it to true. -/
def handleDoubleClick (it : ChecklistItemType) (isEditing : Bool) : Bool :=
  if it.type = ItemType.item ∧ it.completed then isEditing else true

/-- `isSection` of the ChecklistItem row. -/
def isSection (it : ChecklistItemType) : Bool :=
  it.type == ItemType.«section»

/-- The `disabled` attribute of the row checkbox: `disabled={isSection}`. -/
def checkboxDisabled (it : ChecklistItemType) : Bool :=
  isSection it

/-! Concrete items used by the example-based parts of the claims. -/

/-- Example item A (id 1). -/
def itemA : ChecklistItemType :=
  { id := 1, text := "A", type := ItemType.item, completed := false,
    indentation := 0 }

/-- Example item B (id 2). -/
def itemB : ChecklistItemType :=
  { id := 2, text := "B", type := ItemType.item, completed := false,
    indentation := 0 }

/-- Example item C (id 3). -/
def itemC : ChecklistItemType :=
  { id := 3, text := "C", type := ItemType.item, completed := false,
    indentation := 0 }

/-- Example item D (id 4). -/
def itemD : ChecklistItemType :=
  { id := 4, text := "D", type := ItemType.item, completed := false,
    indentation := 0 }

/-- C1 (counterexample): on the input string made of space, a, space the
claim predicts that the appended item carries the trimmed text, but
`handleAddItem` appends the raw input text, so the resulting list differs
from the predicted one. -/
theorem C1_counterexample :
    handleAddItem [] " a " 7 ≠
      [{ id := 7, text := jsTrim " a ", type := ItemType.item,
         completed := false, indentation := 0 }] := by
  decide

/-- C1 (amended): if the input trims to empty, add-item leaves the items
unchanged; otherwise it appends exactly one new item
`{id := now, text := s, type := item, completed := false, indentation := 0}`
to the end — the stored text is the raw input `s`, not its trimmed form —
leaving all existing items unchanged. -/
theorem C1_addItem (items : List ChecklistItemType) (s : String) (now : Int) :
    (jsTrim s = "" → handleAddItem items s now = items) ∧
    (jsTrim s ≠ "" → handleAddItem items s now =
        items ++ [{ id := now, text := s, type := ItemType.item,
                    completed := false, indentation := 0 }]) := by
  constructor <;> intro h <;> simp [handleAddItem, h]

/-- Witness for C1: both branches of `C1_addItem` at concrete inputs. -/
theorem C1_addItem_witness :
    handleAddItem [] " " 7 = [] ∧
    handleAddItem [] " a " 7 =
      [{ id := 7, text := " a ", type := ItemType.item, completed := false,
         indentation := 0 }] :=
  ⟨(C1_addItem [] " " 7).1 (by decide), (C1_addItem [] " a " 7).2 (by decide)⟩

/-- C2 (counterexample): with original text x and edit buffer a single
space, the buffer is non-empty without trimming and differs from the
original, so the claim predicts a rename call; `handleSave` instead
reverts the buffer and issues no call, because it tests emptiness AFTER
trimming. -/
theorem C2_counterexample :
    (" " : String) ≠ "" ∧ (" " : String) ≠ "x" ∧
    handleSave { id := 1, text := "x", type := ItemType.item,
                 completed := false, indentation := 0 } " " =
      ("x", false, none) := by
  decide

/-- C2 (amended): the commit calls rename with the raw buffer `e` if and
only if `e` is non-empty AFTER trimming and differs from the original
text; otherwise no call is issued and the buffer reverts to the original;
in every case the row leaves the editing state. -/
theorem C2_handleSave (it : ChecklistItemType) (e : String) :
    ((handleSave it e).2.2 = some (it.id, e) ↔
        (jsTrim e ≠ "" ∧ e ≠ it.text)) ∧
    ((jsTrim e = "" ∨ e = it.text) → handleSave it e = (it.text, false, none)) ∧
    ((jsTrim e ≠ "" ∧ e ≠ it.text) →
        handleSave it e = (e, false, some (it.id, e))) ∧
    (handleSave it e).2.1 = false := by
  by_cases h : jsTrim e ≠ "" ∧ e ≠ it.text
  · refine ⟨by simp [handleSave, h], ?_, fun _ => by simp [handleSave, h],
      by simp [handleSave, h]⟩
    intro hc
    rcases h with ⟨h1, h2⟩
    rcases hc with hc | hc
    · exact absurd hc h1
    · exact absurd hc h2
  · refine ⟨by simp [handleSave, h], fun _ => by simp [handleSave, h],
      fun hc => absurd hc h, by simp [handleSave, h]⟩

/-- Witness for C2: both commit outcomes of `C2_handleSave` at concrete
inputs — an unchanged buffer issues no call, a changed non-empty buffer
issues exactly one rename call. -/
theorem C2_handleSave_witness :
    handleSave { id := 1, text := "x", type := ItemType.item,
                 completed := false, indentation := 0 } "x" =
      ("x", false, none) ∧
    handleSave { id := 1, text := "x", type := ItemType.item,
                 completed := false, indentation := 0 } "y" =
      ("y", false, some (1, "y")) :=
  ⟨(C2_handleSave _ "x").2.1 (Or.inr (by decide)),
   (C2_handleSave _ "y").2.2.1 (by decide)⟩

/-- C7: from the displaying state, a double click enters the editing state
exactly when the row is NOT a completed item-type row; any section row may
enter editing regardless of its completed flag. -/
theorem C7_handleDoubleClick (it : ChecklistItemType) :
    (handleDoubleClick it false = true ↔
        ¬(it.type = ItemType.item ∧ it.completed = true)) ∧
    (it.type = ItemType.«section» → handleDoubleClick it false = true) := by
  constructor
  · by_cases h : it.type = ItemType.item ∧ it.completed = true
    · simp [handleDoubleClick, h]
    · simp only [handleDoubleClick]
      rw [if_neg]
      · simp [h]
      · simpa using h
  · intro h
    simp [handleDoubleClick, h]

/-- Witness for C7: a completed section still enters editing. -/
theorem C7_handleDoubleClick_witness :
    handleDoubleClick
      { id := 5, text := "S", type := ItemType.«section», completed := true,
        indentation := 0 } false = true :=
  (C7_handleDoubleClick _).2 rfl

/-- C4: toggle preserves the length, rewrites each position by flipping
`completed` exactly on the entries whose id matches (every other entry is
returned unchanged, in place), toggling the same id twice restores the
original sequence, and toggling an id that no entry carries leaves the
sequence unchanged. -/
theorem C4_handleToggleItem (items : List ChecklistItemType) (id : Int) :
    (handleToggleItem items id).length = items.length ∧
    (∀ i : Nat, (handleToggleItem items id)[i]? =
        (items[i]?).map fun it =>
          if it.id = id then { it with completed := !it.completed } else it) ∧
    handleToggleItem (handleToggleItem items id) id = items ∧
    ((∀ it ∈ items, it.id ≠ id) → handleToggleItem items id = items) := by
  refine ⟨by simp [handleToggleItem],
    fun i => by simp [handleToggleItem], ?_, ?_⟩
  · induction items with
    | nil => rfl
    | cons a t ih =>
      simp only [handleToggleItem, List.map_cons] at ih ⊢
      by_cases h : a.id = id
      · simp [h, ih]
        rw [← h]
      · simp [h, ih]
  · intro h
    induction items with
    | nil => rfl
    | cons a t ih =>
      have ha : a.id ≠ id := h a (List.mem_cons_self a t)
      have ht : ∀ it ∈ t, it.id ≠ id := fun it hit =>
        h it (List.mem_cons_of_mem a hit)
      simp only [handleToggleItem, List.map_cons] at ih ⊢
      simp [ha, ih ht]

/-- Witness for C4: toggling id 9, which no entry of the two-item list
carries, leaves the list unchanged. -/
theorem C4_handleToggleItem_witness :
    handleToggleItem [itemA, itemB] 9 = [itemA, itemB] :=
  (C4_handleToggleItem [itemA, itemB] 9).2.2.2 (by decide)

/-- C5: indent rewrites each position in place — an entry whose id matches
and whose type is item gets indentation `min (ind + 1) 5` on increase and
`max (ind - 1) 0` on decrease (so 5 stays 5 and 0 stays 0), every other
entry is unchanged — and indenting an id carried only by sections leaves
the whole sequence unchanged in either direction. -/
theorem C5_handleIndentItem (items : List ChecklistItemType) (id : Int)
    (direction : IndentDirection) :
    (∀ i : Nat, (handleIndentItem items id direction)[i]? =
        (items[i]?).map fun it =>
          if it.id = id ∧ it.type = ItemType.item then
            { it with indentation :=
                match direction with
                | IndentDirection.increase => min (it.indentation + 1) 5
                | IndentDirection.decrease => max (it.indentation - 1) 0 }
          else it) ∧
    ((∀ it ∈ items, it.id = id → it.type = ItemType.«section») →
        handleIndentItem items id direction = items) := by
  refine ⟨fun i => by simp [handleIndentItem], ?_⟩
  intro h
  induction items with
  | nil => rfl
  | cons a t ih =>
    have ht : ∀ it ∈ t, it.id = id → it.type = ItemType.«section» :=
      fun it hit => h it (List.mem_cons_of_mem a hit)
    have ha : ¬(a.id = id ∧ a.type = ItemType.item) := by
      rintro ⟨h1, h2⟩
      have := h a (List.mem_cons_self a t) h1
      rw [h2] at this
      exact ItemType.noConfusion this
    simp only [handleIndentItem, List.map_cons] at ih ⊢
    simp [ha, ih ht]

/-- Witness for C5: increasing the indent of id 9, carried only by a
section, leaves the list unchanged. -/
theorem C5_handleIndentItem_witness :
    handleIndentItem
      [itemA, { id := 9, text := "S", type := ItemType.«section»,
                completed := false, indentation := 0 }] 9
      IndentDirection.increase =
      [itemA, { id := 9, text := "S", type := ItemType.«section»,
                completed := false, indentation := 0 }] :=
  (C5_handleIndentItem _ 9 IndentDirection.increase).2 (by decide)

/-- C8: rename preserves the length and the order; at each position, an
entry whose id matches is replaced by the same record with only `text`
set to the new string, and any other entry is returned unchanged; in
every case the id, type, completed and indentation fields at each
position are those of the original entry. -/
theorem C8_handleUpdateItemText (items : List ChecklistItemType) (id : Int)
    (newText : String) :
    (handleUpdateItemText items id newText).length = items.length ∧
    (∀ i : Nat, ∀ it, items[i]? = some it →
       (it.id = id → (handleUpdateItemText items id newText)[i]? =
           some { it with text := newText }) ∧
       (it.id ≠ id → (handleUpdateItemText items id newText)[i]? = some it)) ∧
    (∀ i : Nat, ∀ it it2, items[i]? = some it →
       (handleUpdateItemText items id newText)[i]? = some it2 →
       it2.id = it.id ∧ it2.type = it.type ∧ it2.completed = it.completed ∧
       it2.indentation = it.indentation) := by
  refine ⟨by simp [handleUpdateItemText], ?_, ?_⟩
  · intro i it hit
    constructor <;> intro h <;>
      simp [handleUpdateItemText, List.getElem?_map, hit, h]
  · intro i it it2 hit hit2
    simp only [handleUpdateItemText, List.getElem?_map, hit,
      Option.map] at hit2
    by_cases h : it.id = id
    · rw [if_pos h] at hit2
      injection hit2 with hh
      subst hh
      exact ⟨rfl, rfl, rfl, rfl⟩
    · rw [if_neg h] at hit2
      injection hit2 with hh
      subst hh
      exact ⟨rfl, rfl, rfl, rfl⟩

/-- Witness for C8: renaming id 1 in a two-item list rewrites only the
first item and only its text. -/
theorem C8_handleUpdateItemText_witness :
    (handleUpdateItemText [itemA, itemB] 1 "Z")[0]? =
      some { itemA with text := "Z" } ∧
    (handleUpdateItemText [itemA, itemB] 1 "Z")[1]? = some itemB :=
  ⟨((C8_handleUpdateItemText [itemA, itemB] 1 "Z").2.1 0 itemA rfl).1 rfl,
   ((C8_handleUpdateItemText [itemA, itemB] 1 "Z").2.1 1 itemB rfl).2
     (by decide)⟩

/-- C10: the container toggle carries no type restriction — at any
position holding an entry with the given id, a section included, the
result holds the same entry with `completed` negated — while the row
checkbox is disabled exactly for sections. -/
theorem C10_toggleSection (items : List ChecklistItemType) (id : Int) :
    (∀ i : Nat, ∀ it, items[i]? = some it → it.id = id →
        (handleToggleItem items id)[i]? =
          some { it with completed := !it.completed }) ∧
    (∀ it : ChecklistItemType,
        checkboxDisabled it = true ↔ it.type = ItemType.«section») := by
  constructor
  · intro i it hit h
    simp [handleToggleItem, List.getElem?_map, hit, h]
  · intro it
    simp [checkboxDisabled, isSection]

/-- Witness for C10: toggling the id of a section flips its completed
flag. -/
theorem C10_toggleSection_witness :
    (handleToggleItem
      [{ id := 9, text := "S", type := ItemType.«section»,
         completed := false, indentation := 0 }] 9)[0]? =
      some { id := 9, text := "S", type := ItemType.«section»,
             completed := true, indentation := 0 } :=
  (C10_toggleSection _ 9).1 0 _ rfl rfl

/-- Helper: deleting does nothing when no entry carries the id. -/
theorem handleDeleteItem_eq_self (items : List ChecklistItemType) (id : Int)
    (h : ∀ it ∈ items, it.id ≠ id) : handleDeleteItem items id = items := by
  refine List.filter_eq_self.2 ?_
  intro it hit
  simpa using h it hit

/-- Helper: over pairwise distinct ids, deleting a present id drops the
length by exactly one. -/
theorem length_handleDeleteItem (items : List ChecklistItemType) (id : Int)
    (hnodup : (items.map fun it => it.id).Nodup)
    (hmem : ∃ it ∈ items, it.id = id) :
    (handleDeleteItem items id).length + 1 = items.length := by
  induction items with
  | nil => rcases hmem with ⟨x, hx, _⟩; cases hx
  | cons a t ih =>
    simp only [List.map_cons, List.nodup_cons] at hnodup
    obtain ⟨ha, ht⟩ := hnodup
    by_cases hid : a.id = id
    · have hnone : ∀ it ∈ t, it.id ≠ id := by
        intro it hit he
        exact ha (by rw [hid, ← he]; exact List.mem_map_of_mem _ hit)
      have hself : handleDeleteItem t id = t :=
        handleDeleteItem_eq_self t id hnone
      simp only [handleDeleteItem, List.filter_cons] at hself ⊢
      simp [hid, hself]
    · rcases hmem with ⟨x, hx, hxid⟩
      rcases List.mem_cons.1 hx with rfl | hx
      · exact absurd hxid hid
      · have hlen := ih ht ⟨x, hx, hxid⟩
        simp only [handleDeleteItem, List.filter_cons] at hlen ⊢
        simp only [List.length_cons]
        rw [if_pos (by simpa using hid)]
        simp only [List.length_cons]
        omega

/-- C6: over a sequence whose ids are pairwise distinct, delete keeps a
subsequence of the input (so the relative order of the survivors is
preserved), every entry with a different id survives, no entry with the
target id survives, a present id makes the length drop by exactly one,
and an absent id leaves the sequence unchanged. -/
theorem C6_handleDeleteItem (items : List ChecklistItemType) (id : Int)
    (hnodup : (items.map fun it => it.id).Nodup) :
    List.Sublist (handleDeleteItem items id) items ∧
    (∀ it ∈ items, it.id ≠ id → it ∈ handleDeleteItem items id) ∧
    (∀ it ∈ handleDeleteItem items id, it.id ≠ id) ∧
    ((∃ it ∈ items, it.id = id) →
        (handleDeleteItem items id).length + 1 = items.length) ∧
    ((∀ it ∈ items, it.id ≠ id) → handleDeleteItem items id = items) := by
  refine ⟨List.filter_sublist items, ?_, ?_,
    fun hmem => length_handleDeleteItem items id hnodup hmem,
    fun h => handleDeleteItem_eq_self items id h⟩
  · intro it hit hne
    refine List.mem_filter.2 ⟨hit, ?_⟩
    simpa using hne
  · intro it hit
    have := (List.mem_filter.1 hit).2
    simpa using this

/-- Witness for C6: deleting id 1 from the two-item list removes exactly
one entry, and deleting the absent id 9 changes nothing. -/
theorem C6_handleDeleteItem_witness :
    (handleDeleteItem [itemA, itemB] 1).length + 1 = 2 ∧
    handleDeleteItem [itemA, itemB] 9 = [itemA, itemB] :=
  ⟨(C6_handleDeleteItem [itemA, itemB] 1 (by decide)).2.2.2.1
      ⟨itemA, by decide⟩,
   (C6_handleDeleteItem [itemA, itemB] 9 (by decide)).2.2.2.2 (by decide)⟩

/-- C3: the drop handler is the identity whenever either id fails to
resolve to an index or both resolve to the same index; otherwise it
removes the dragged entry from its index and reinserts it at the target
index computed before the removal; in particular on [A, B, C, D] dragging
A onto C yields [B, C, A, D] and dragging D onto A yields [D, A, B, C]. -/
theorem C3_handleDrop :
    (∀ (items : List ChecklistItemType) (dragId overId : Int),
       (items.findIdx? (fun it => it.id == dragId) = none ∨
        items.findIdx? (fun it => it.id == overId) = none ∨
        items.findIdx? (fun it => it.id == dragId) =
          items.findIdx? (fun it => it.id == overId)) →
       handleDrop items dragId overId = items) ∧
    (∀ (items : List ChecklistItemType) (dragId overId : Int) (i j : Nat)
       (x : ChecklistItemType),
       items.findIdx? (fun it => it.id == dragId) = some i →
       items.findIdx? (fun it => it.id == overId) = some j →
       i ≠ j → items[i]? = some x →
       handleDrop items dragId overId =
         (items.eraseIdx i).take j ++ x :: (items.eraseIdx i).drop j) ∧
    handleDrop [itemA, itemB, itemC, itemD] 1 3 =
      [itemB, itemC, itemA, itemD] ∧
    handleDrop [itemA, itemB, itemC, itemD] 4 1 =
      [itemD, itemA, itemB, itemC] := by
  refine ⟨?_, ?_, by decide, by decide⟩
  · intro items dragId overId h
    unfold handleDrop
    cases hd : items.findIdx? (fun it => it.id == dragId) with
    | none => rfl
    | some i =>
      cases ht : items.findIdx? (fun it => it.id == overId) with
      | none => rfl
      | some j =>
        rcases h with h | h | h
        · rw [hd] at h; cases h
        · rw [ht] at h; cases h
        · rw [hd, ht] at h
          injection h with hij
          simp [hij]
  · intro items dragId overId i j x hi hj hij hx
    unfold handleDrop
    rw [hi, hj]
    simp only [if_neg hij, hx]

/-- Witness for C3: both universally quantified parts of `C3_handleDrop`
at concrete inputs — an absent drag id is a no-op, and dragging id 1 onto
id 2 in a two-item list performs the splice. -/
theorem C3_handleDrop_witness :
    handleDrop [itemA, itemB] 9 1 = [itemA, itemB] ∧
    handleDrop [itemA, itemB] 1 2 =
      (([itemA, itemB].eraseIdx 0).take 1 ++
        itemA :: ([itemA, itemB].eraseIdx 0).drop 1) :=
  ⟨C3_handleDrop.1 [itemA, itemB] 9 1 (Or.inl (by decide)),
   C3_handleDrop.2.1 [itemA, itemB] 1 2 0 1 itemA (by decide) (by decide)
     (by decide) (by decide)⟩

/-- C9: the drop handler returns a permutation of its input — no entry is
lost, duplicated or modified by a reorder, whatever the two drag ids. -/
theorem C9_handleDrop_perm (items : List ChecklistItemType)
    (dragId overId : Int) :
    List.Perm (handleDrop items dragId overId) items := by
  unfold handleDrop
  cases hd : items.findIdx? (fun it => it.id == dragId) with
  | none => exact List.Perm.refl items
  | some i =>
    cases ht : items.findIdx? (fun it => it.id == overId) with
    | none => exact List.Perm.refl items
    | some j =>
      by_cases hij : i = j
      · simp [hij]
      · cases hx : items[i]? with
        | none =>
          simp only [if_neg hij, hx]
          exact List.Perm.refl items
        | some x =>
          simp only [if_neg hij, hx]
          have hlt : i < items.length := by
            rcases List.getElem?_eq_some.1 hx with ⟨h, _⟩
            exact h
          have h1 : List.Perm
              ((items.eraseIdx i).take j ++ x :: (items.eraseIdx i).drop j)
              (x :: items.eraseIdx i) := by
            have hp := @List.perm_middle ChecklistItemType x
              ((items.eraseIdx i).take j) ((items.eraseIdx i).drop j)
            rw [List.take_append_drop] at hp
            exact hp
          refine h1.trans ?_
          have hdrop : items.drop i = x :: items.drop (i + 1) := by
            rw [List.drop_eq_getElem_cons hlt]
            rcases List.getElem?_eq_some.1 hx with ⟨h, hv⟩
            rw [hv]
          have h3 : items.take i ++ x :: items.drop (i + 1) = items := by
            rw [← hdrop, List.take_append_drop]
          have h5 : List.Perm (x :: items.eraseIdx i)
              (items.take i ++ x :: items.drop (i + 1)) := by
            rw [List.eraseIdx_eq_take_drop_succ]
            exact List.perm_middle.symm
          exact h5.trans (by rw [h3])

end QuickChecklists
